import Mathlib

/-!
Verification development for the heap_z memory manager (src/heap.h).

The heap state is a collection of memory control blocks (MCBs) living at
byte addresses inside one or more memory pools, linked into a circular
list anchored by the pointers `start` and `freemem`.  We embed the C++
code shallowly:

* addresses are natural numbers (pools never sit at address 0, which the
  code uses as the null pointer);
* the raw memory holding MCB headers is an association list from
  addresses to header records; reading a header at an address where none
  was ever written is undefined behaviour in C and yields `none` here;
* `size_t` is 32 bits wide (the embedded targets of this library), so
  the size computation in `malloc` is done modulo 2^32, and the packed
  24-bit `ts.size` bitfield truncates every stored size modulo 2^24;
* every C statement that writes a single MCB field becomes a single
  field update, so aliased writes (for example a degenerate split whose
  new header lands on the old one) behave exactly as in the source;
* `sizeof(mcb)` is 12 bytes and `HEAP_ALIGN = sizeof(int)` is 4 bytes
  (two 4-byte pointers plus the 4-byte packed type/size field of a
  32-bit target);
* the compile-time constant `USE_FULL_SCAN` is 1, as in src/heap.h; both
  scanning strategies are embedded and the constant selects between them.

Fallible operations return `Option`: `none` means the C code would have
read memory that holds no live header (or ran past the fuel bound used
to model the unstructured `for(;;)` loop).
-/

namespace HeapZ

/-- HEAP_ALIGN = sizeof(int) on the 32-bit targets of this library. -/
def HEAP_ALIGN : Nat := 4

/-- Size in bytes of the memory control block: two pointers plus the packed
type/size word. -/
def mcbSize : Nat := 12

/-- Modulus of the 32-bit size_t arithmetic, 2 ^ 32. -/
def SIZE_T_MOD : Nat := 4294967296

/-- Modulus of the packed 24-bit ts.size bitfield, 2 ^ 24. -/
def SIZE24 : Nat := 16777216

/-- Compile-time scan strategy selector; src/heap.h sets USE_FULL_SCAN = 1. -/
def USE_FULL_SCAN : Bool := true

/-- The mcb::mark enumeration. -/
inductive Mark where
  | FREE
  | ALLOCATED
  deriving DecidableEq

/-- One memory control block: links, the packed allocation mark and the
packed 24-bit size field. -/
structure MCB where
  next : Nat
  prev : Nat
  size : Nat
  type : Mark
  deriving DecidableEq

/-- Raw header memory: which addresses currently hold an MCB header, and
its contents. -/
abbrev Mem := List (Nat × MCB)

/-- Read the header stored at address a, if any. -/
def lookupMCB : Mem → Nat → Option MCB
  | [], _ => none
  | (k, v) :: rest, a => if k = a then some v else lookupMCB rest a

/-- Write a whole header at address a (creating it if absent). -/
def storeMCB : Mem → Nat → MCB → Mem
  | [], a, v => [(a, v)]
  | (k, w) :: rest, a, v =>
    if k = a then (k, v) :: rest else (k, w) :: storeMCB rest a v

/-- Write the next field of the header at a; fails if no header lives there. -/
def setNext (m : Mem) (a x : Nat) : Option Mem :=
  (lookupMCB m a).map fun h => storeMCB m a { h with next := x }

/-- Write the prev field of the header at a; fails if no header lives there. -/
def setPrev (m : Mem) (a x : Nat) : Option Mem :=
  (lookupMCB m a).map fun h => storeMCB m a { h with prev := x }

/-- Write the 24-bit ts.size bitfield of the header at a, truncating the
assigned size_t value as the packed field does. -/
def setSize (m : Mem) (a x : Nat) : Option Mem :=
  (lookupMCB m a).map fun h => storeMCB m a { h with size := x % SIZE24 }

/-- Write the ts.type field of the header at a. -/
def setType (m : Mem) (a : Nat) (t : Mark) : Option Mem :=
  (lookupMCB m a).map fun h => storeMCB m a { h with type := t }

/-- The whole heap descriptor: header memory plus the two anchor pointers. -/
structure HeapState where
  mem : Mem
  start : Nat
  freemem : Nat
  deriving DecidableEq

/-- heap::init carves the pool at base into a single free chunk whose next
and prev point to itself; the constructors set start = freemem = base.
The assignment to the packed field truncates modulo 2^24. -/
def heapInit (base bytes : Nat) : HeapState :=
  { mem := [(base, { next := base, prev := base,
                     size := (bytes - mcbSize) % SIZE24, type := Mark.FREE })],
    start := base,
    freemem := base }

/-- heap::add splices a new region in next to the current freemem chunk:
the fresh header points at freemem, its prev points to itself, and the
freemem chunk is rewired to point at the region.  start is not touched. -/
def heapAdd (s : HeapState) (region sz : Nat) : Option HeapState :=
  let t := s.freemem
  let m1 := storeMCB s.mem region
      { next := t, prev := region, size := (sz - mcbSize) % SIZE24,
        type := Mark.FREE }
  match setNext m1 t region with
  | none => none
  | some m2 => some { s with mem := m2 }

/-- Two-complement style 32-bit subtraction, as size_t arithmetic does it. -/
def sub32 (x y : Nat) : Nat := (x + (SIZE_T_MOD - y % SIZE_T_MOD)) % SIZE_T_MOD

/-- mcb::merge_with_next absorbs the list successor into the chunk at a:
the sizes add (truncated by the bitfield), the successor link is adopted,
and if the adopted successor is not start its prev is repointed to a. -/
def mergeWithNext (m : Mem) (a start : Nat) : Option Mem :=
  match lookupMCB m a with
  | none => none
  | some h =>
    match lookupMCB m h.next with
    | none => none
    | some oh =>
      match setSize m a (h.size + oh.size) with
      | none => none
      | some m1 =>
        match setNext m1 a oh.next with
        | none => none
        | some m2 =>
          if oh.next ≠ start then setPrev m2 oh.next a else some m2

/-- mcb::split carves an allocated chunk of (byte) length sz out of the
chunk at a: a fresh free header is written at a + sz holding the
remainder, the chunk at a is cut down to sz and marked allocated, and if
the new header is not last its successor prev is repointed to it.  The
field writes happen in source order, so a degenerate split with sz = 0
overwrites the old header exactly as the C code does. -/
def mcbSplit (m : Mem) (a sz start : Nat) : Option (Mem × Nat) :=
  match lookupMCB m a with
  | none => none
  | some h =>
    let na := a + sz
    let m1 := storeMCB m na
        { next := h.next, prev := a, size := sub32 h.size sz % SIZE24,
          type := Mark.FREE }
    match setNext m1 a na with
    | none => none
    | some m2 =>
      match setSize m2 a sz with
      | none => none
      | some m3 =>
        match setType m3 a Mark.ALLOCATED with
        | none => none
        | some m4 =>
          match lookupMCB m4 na with
          | none => none
          | some nh =>
            if nh.next ≠ start then
              match setPrev m4 nh.next na with
              | none => none
              | some m5 => some (m5, na)
            else some (m4, na)

/-- The size computation at the top of heap::malloc: add sizeof(mcb),
round up to HEAP_ALIGN, all in 32-bit size_t arithmetic. -/
def roundedSizeW (n : Nat) : Nat :=
  (((n + mcbSize + (HEAP_ALIGN - 1)) % SIZE_T_MOD) / HEAP_ALIGN) * HEAP_ALIGN

/-- One iteration of the malloc scan body, before the advance step.
Returns inl on break (final memory, ASA pointer, final tptr, free count)
and inr to continue (updated candidate pointer and free count). -/
def mallocStep (start sz : Nat) (m : Mem) (tptr : Nat) (xptr : Option Nat)
    (cnt : Nat) (h : MCB) :
    Option ((Mem × Option Nat × Nat × Nat) ⊕ (Option Nat × Nat)) :=
  if h.type = Mark.FREE then
    let cnt1 := if USE_FULL_SCAN then cnt else cnt + 1
    if sz ≤ h.size ∧ h.size ≤ sz + mcbSize + HEAP_ALIGN then
      match setType m tptr Mark.ALLOCATED with
      | none => none
      | some m2 =>
        some (Sum.inl (m2, some (tptr + mcbSize), tptr,
                       if USE_FULL_SCAN then cnt1 + 1 else cnt1))
    else if USE_FULL_SCAN then
      match xptr with
      | none =>
        some (Sum.inr (if sz ≤ h.size then some tptr else none, cnt1 + 1))
      | some _ => some (Sum.inr (xptr, cnt1))
    else if sz ≤ h.size then
      match mcbSplit m tptr sz start with
      | none => none
      | some (m2, _) => some (Sum.inl (m2, some (tptr + mcbSize), tptr, cnt1))
    else some (Sum.inr (xptr, cnt1))
  else some (Sum.inr (xptr, cnt))

/-- The for loop of heap::malloc, fuel-bounded.  On continue the scan
advances to the next chunk; reaching start either splits the remembered
full-scan candidate or fails with a null result. -/
def mallocLoop (start sz : Nat) :
    Nat → Mem → Nat → Option Nat → Nat → Option (Mem × Option Nat × Nat × Nat)
  | 0, _, _, _, _ => none
  | fuel + 1, m, tptr, xptr, cnt =>
    match lookupMCB m tptr with
    | none => none
    | some h =>
      match mallocStep start sz m tptr xptr cnt h with
      | none => none
      | some (Sum.inl r) => some r
      | some (Sum.inr (xptr2, cnt2)) =>
        if h.next = start then
          if USE_FULL_SCAN then
            match xptr2 with
            | some x =>
              match mcbSplit m x sz start with
              | none => none
              | some (m2, _) => some (m2, some (x + mcbSize), x, cnt2)
            | none => some (m, none, h.next, cnt2)
          else some (m, none, h.next, cnt2)
        else mallocLoop start sz fuel m h.next xptr2 cnt2

/-- heap::malloc: rounds, scans from freemem, and if exactly one free
chunk was counted on a successful scan advances freemem to the chunk
after the allocated one. -/
def heapMalloc (s : HeapState) (n fuel : Nat) :
    Option (HeapState × Option Nat) :=
  match mallocLoop s.start (roundedSizeW n) fuel s.mem s.freemem none 0 with
  | none => none
  | some (m, a, t, cnt) =>
    if cnt = 1 ∧ a.isSome then
      match lookupMCB m t with
      | none => none
      | some th => some ({ s with mem := m, freemem := th.next }, a)
    else some ({ s with mem := m }, a)

/-- heap::free: null/alignment check, structural crosscheck through the
prev link, mark free, coalesce forward then backward, and lower freemem
to the freed chunk when it is lower. -/
def heapFree (s : HeapState) (p : Nat) : Option HeapState :=
  if p = 0 ∨ p % HEAP_ALIGN ≠ 0 then some s
  else
    match lookupMCB s.mem (p - mcbSize) with
    | none => none
    | some th =>
      match (if th.prev = p - mcbSize then some false
        else
          match lookupMCB s.mem th.prev with
          | none => none
          | some xh => some (decide (xh.next ≠ p - mcbSize)) :
          Option Bool) with
      | none => none
      | some bad =>
        if bad ∨ p < s.start then some s
        else
          match setType s.mem (p - mcbSize) Mark.FREE with
          | none => none
          | some m1 =>
            match lookupMCB m1 (p - mcbSize) with
            | none => none
            | some th1 =>
              match lookupMCB m1 th1.next with
              | none => none
              | some xh1 =>
                match
                  (if xh1.type = Mark.FREE ∧ th1.next ≠ s.start then
                    mergeWithNext m1 (p - mcbSize) s.start
                  else some m1) with
                | none => none
                | some m2 =>
                  match lookupMCB m2 (p - mcbSize) with
                  | none => none
                  | some th2 =>
                    match lookupMCB m2 th2.prev with
                    | none => none
                    | some ph =>
                      match
                        (if ph.type = Mark.FREE ∧ p - mcbSize ≠ s.start then
                          match mergeWithNext m2 th2.prev s.start with
                          | none => none
                          | some m3 => some (m3, th2.prev)
                        else some (m2, p - mcbSize)) with
                      | none => none
                      | some (m3, t3) =>
                        if t3 < s.freemem then
                          some { s with mem := m3, freemem := t3 }
                        else some { s with mem := m3, freemem := s.freemem }

/-- Per-class counters of heap::summary::info. -/
structure SummaryInfo where
  Blocks : Nat
  Block_max_size : Nat
  Size : Nat
  deriving DecidableEq

/-- Result of heap::info. -/
structure Summary where
  Used : SummaryInfo
  Free : SummaryInfo
  deriving DecidableEq

/-- Account one chunk into a per-class counter (sizes add in size_t). -/
def infoAdd (acc : SummaryInfo) (h : MCB) : SummaryInfo :=
  { Blocks := acc.Blocks + 1,
    Block_max_size := if acc.Block_max_size < h.size then h.size
                      else acc.Block_max_size,
    Size := (acc.Size + h.size) % SIZE_T_MOD }

/-- The do/while walk of heap::info, fuel-bounded: classify the current
chunk, advance, stop when the next chunk is start. -/
def infoLoop (start : Nat) : Nat → Mem → Nat → Summary → Option Summary
  | 0, _, _, _ => none
  | fuel + 1, m, p, acc =>
    match lookupMCB m p with
    | none => none
    | some h =>
      let acc2 := if h.type = Mark.FREE then { acc with Free := infoAdd acc.Free h }
                  else { acc with Used := infoAdd acc.Used h }
      if h.next = start then some acc2 else infoLoop start fuel m h.next acc2

/-- heap::info starts its walk at freemem and stops on reaching start. -/
def heapInfo (s : HeapState) (fuel : Nat) : Option Summary :=
  infoLoop s.start fuel s.mem s.freemem
    { Used := ⟨0, 0, 0⟩, Free := ⟨0, 0, 0⟩ }

/-!
Specification-side notions.  The definitions below are not part of the
embedded code; they formalise the vocabulary the specification uses to
talk about it: the circular chunk list (a walk along next starting at
start), next-reachability, the invariants I1 to I4 of the data-model
section, and the chunk counting the hint-update and exact-fit claims
refer to.
-/

/-- Walk the chunk list along next from p until the successor is start,
collecting address and header of every chunk visited.  With p = start
this is the circular chunk list of the specification. -/
def chunkWalk : Nat → Mem → Nat → Nat → Option (List (Nat × MCB))
  | 0, _, _, _ => none
  | fuel + 1, m, start, p =>
    match lookupMCB m p with
    | none => none
    | some h =>
      if h.next = start then some [(p, h)]
      else
        match chunkWalk fuel m start h.next with
        | none => none
        | some rest => some ((p, h) :: rest)

/-- The chunk list of a heap state, walked from start. -/
def chunkList (s : HeapState) (fuel : Nat) : Option (List (Nat × MCB)) :=
  chunkWalk fuel s.mem s.start s.start

/-- Follow next n times from address a. -/
def iterNext (m : Mem) : Nat → Nat → Option Nat
  | 0, a => some a
  | n + 1, a =>
    match lookupMCB m a with
    | none => none
    | some h => iterNext m n h.next

/-- Bounded check that following next from a reaches start within bound
positive steps. -/
def reachesStartWithin (m : Mem) (start a bound : Nat) : Bool :=
  (List.range bound).any fun k => iterNext m (k + 1) a == some start

/-- Invariant I1 of the specification, checked on the walked list:
following next from any chunk reaches start, and the prev of every chunk
other than start names a chunk whose next points back to it. -/
def specI1B (s : HeapState) (fuel : Nat) : Bool :=
  match chunkList s fuel with
  | none => false
  | some l =>
    (l.all fun e => reachesStartWithin s.mem s.start e.1 l.length) &&
    (l.all fun e =>
      (e.1 == s.start) ||
      (match lookupMCB s.mem e.2.prev with
       | some hp => hp.next == e.1
       | none => false))

/-- Chunk f begins exactly where chunk e ends (header plus stored size). -/
def adjacentB (e f : Nat × MCB) : Bool :=
  e.1 + mcbSize + e.2.size == f.1

/-- Invariant I2 of the specification: no two address-adjacent chunks are
simultaneously free. -/
def specI2B (s : HeapState) (fuel : Nat) : Bool :=
  match chunkList s fuel with
  | none => false
  | some l =>
    l.all fun e => l.all fun f =>
      !(adjacentB e f && e.2.type == Mark.FREE && f.2.type == Mark.FREE)

/-- Sum of header size plus stored size over a chunk list, the accounting
quantity of invariant I3. -/
def chunkAccount (l : List (Nat × MCB)) : Nat :=
  l.foldl (fun acc e => acc + mcbSize + e.2.size) 0

/-- Invariant I3 of the specification against a registered byte total:
every size is a multiple of the alignment unit and header-plus-size sums
to the registered total. -/
def specI3B (s : HeapState) (fuel total : Nat) : Bool :=
  match chunkList s fuel with
  | none => false
  | some l =>
    (l.all fun e => e.2.size % HEAP_ALIGN == 0) &&
    (chunkAccount l == total)

/-- Invariant I4 of the specification: the hint is one of the chunks of
the list. -/
def specI4B (s : HeapState) (fuel : Nat) : Bool :=
  match chunkList s fuel with
  | none => false
  | some l => l.any fun e => e.1 == s.freemem

/-- Every header currently in memory stores a size that is a multiple of
the alignment unit. -/
def MemAligned (m : Mem) : Prop :=
  ∀ e ∈ m, e.2.size % HEAP_ALIGN = 0

instance memAlignedDecidable (m : Mem) : Decidable (MemAligned m) :=
  inferInstanceAs (Decidable (∀ e ∈ m, e.2.size % HEAP_ALIGN = 0))

/-- Every header currently in memory stores a size below 2^24, as every
write through the packed bitfield guarantees. -/
def MemSized (m : Mem) : Prop :=
  ∀ e ∈ m, e.2.size < SIZE24

instance memSizedDecidable (m : Mem) : Decidable (MemSized m) :=
  inferInstanceAs (Decidable (∀ e ∈ m, e.2.size < SIZE24))

/-- The remembered full-scan candidate, when present, is a free chunk
that is large enough but not an exact fit.  This holds of the candidate
variable throughout the malloc scan. -/
def candInv (m : Mem) (sz : Nat) (xptr : Option Nat) : Prop :=
  ∀ x, xptr = some x →
    ∃ hx, lookupMCB m x = some hx ∧ hx.type = Mark.FREE ∧ sz ≤ hx.size ∧
      ¬(sz ≤ hx.size ∧ hx.size ≤ sz + mcbSize + HEAP_ALIGN)

/-- Mathematical rounding of a request: request plus header size rounded
up to the alignment unit, with no machine-width wraparound. -/
def roundUpAligned (n : Nat) : Nat :=
  ((n + mcbSize + (HEAP_ALIGN - 1)) / HEAP_ALIGN) * HEAP_ALIGN

/-- Free chunks counted the way the code counts them: a free chunk seen
while no split candidate is remembered counts, a free chunk seen after a
candidate was remembered does not, and an exact-fit success counts
itself.  Returns the count and whether the scan succeeds. -/
def countLoop (start sz : Nat) : Nat → Mem → Nat → Bool → Nat → Option (Nat × Bool)
  | 0, _, _, _, _ => none
  | fuel + 1, m, t, cand, cnt =>
    match lookupMCB m t with
    | none => none
    | some h =>
      if h.type = Mark.FREE ∧ sz ≤ h.size ∧ h.size ≤ sz + mcbSize + HEAP_ALIGN then
        some (cnt + 1, true)
      else
        if h.next = start then
          some ((if h.type = Mark.FREE ∧ cand = false then cnt + 1 else cnt),
                (cand || (decide (h.type = Mark.FREE) && decide (sz ≤ h.size))))
        else
          countLoop start sz fuel m h.next
            (cand || (decide (h.type = Mark.FREE) && decide (sz ≤ h.size)))
            (if h.type = Mark.FREE ∧ cand = false then cnt + 1 else cnt)

/-- Free chunks counted the way the claim reads: every free chunk
inspected during the scan counts, also after a candidate was remembered.
Same control flow as the scan, count incremented at every free chunk. -/
def inspectAllLoop (start sz : Nat) : Nat → Mem → Nat → Bool → Nat → Option (Nat × Bool)
  | 0, _, _, _, _ => none
  | fuel + 1, m, t, cand, cnt =>
    match lookupMCB m t with
    | none => none
    | some h =>
      if h.type = Mark.FREE ∧ sz ≤ h.size ∧ h.size ≤ sz + mcbSize + HEAP_ALIGN then
        some (cnt + 1, true)
      else
        if h.next = start then
          some ((if h.type = Mark.FREE then cnt + 1 else cnt),
                (cand || (decide (h.type = Mark.FREE) && decide (sz ≤ h.size))))
        else
          inspectAllLoop start sz fuel m h.next
            (cand || (decide (h.type = Mark.FREE) && decide (sz ≤ h.size)))
            (if h.type = Mark.FREE then cnt + 1 else cnt)

/-- The guard conditions of heap::free as a predicate: true exactly when
the pointer passes the null, alignment, crosscheck and lower-bound tests
and the body of free proceeds to the mark-free and coalescing steps. -/
def freeValidB (m : Mem) (start p : Nat) : Bool :=
  if p = 0 ∨ p % HEAP_ALIGN ≠ 0 then false
  else
    match lookupMCB m (p - mcbSize) with
    | none => false
    | some th =>
      if th.prev = p - mcbSize then decide (start ≤ p)
      else
        match lookupMCB m th.prev with
        | none => false
        | some xh => decide (xh.next = p - mcbSize) && decide (start ≤ p)

/-- A release argument rejected by the guards of heap::free: null,
misaligned, failing the prev crosscheck, or below start. -/
def freeRejected (s : HeapState) (p : Nat) : Prop :=
  p = 0 ∨ p % HEAP_ALIGN ≠ 0 ∨
    (∃ th, lookupMCB s.mem (p - mcbSize) = some th ∧
      ((th.prev = p - mcbSize ∧ p < s.start) ∨
       (th.prev ≠ p - mcbSize ∧
         ∃ xh, lookupMCB s.mem th.prev = some xh ∧
           (xh.next ≠ p - mcbSize ∨ p < s.start))))

/-- Heap states reachable from a freshly initialised pool through the
public operations, with pool and extension sizes that are multiples of
the alignment unit (pools are arrays of int in the source). -/
inductive Reach : HeapState → Prop where
  | init : ∀ base bytes, mcbSize ≤ bytes → bytes % HEAP_ALIGN = 0 →
      Reach (heapInit base bytes)
  | malloc : ∀ s n fuel s2 r, Reach s → heapMalloc s n fuel = some (s2, r) →
      Reach s2
  | free : ∀ s p s2, Reach s → heapFree s p = some s2 → Reach s2
  | add : ∀ s region sz s2, Reach s → sz % HEAP_ALIGN = 0 →
      heapAdd s region sz = some s2 → Reach s2

/-!
Basic lemmas about the raw header memory.
-/

theorem lookup_store_self (m : Mem) (a : Nat) (v : MCB) :
    lookupMCB (storeMCB m a v) a = some v := by
  induction m with
  | nil => simp [storeMCB, lookupMCB]
  | cons e rest ih =>
    obtain ⟨k, w⟩ := e
    by_cases hk : k = a
    · simp [storeMCB, lookupMCB, hk]
    · simp [storeMCB, lookupMCB, hk, ih]

theorem lookup_store_ne (m : Mem) (a b : Nat) (v : MCB) (hab : a ≠ b) :
    lookupMCB (storeMCB m a v) b = lookupMCB m b := by
  induction m with
  | nil => simp [storeMCB, lookupMCB, hab]
  | cons e rest ih =>
    obtain ⟨k, w⟩ := e
    by_cases hk : k = a
    · subst hk
      simp [storeMCB, lookupMCB, hab]
    · simp [storeMCB, lookupMCB, hk, ih]

theorem mem_of_lookup {m : Mem} {a : Nat} {h : MCB} :
    lookupMCB m a = some h → (a, h) ∈ m := by
  induction m with
  | nil => simp [lookupMCB]
  | cons e rest ih =>
    obtain ⟨k, w⟩ := e
    by_cases hk : k = a
    · subst hk
      simp [lookupMCB]
      intro he
      exact Or.inl (by simp [he])
    · simp [lookupMCB, hk]
      intro he
      exact Or.inr (ih he)

theorem setType_eq (m : Mem) (a : Nat) (t : Mark) (h : MCB)
    (hl : lookupMCB m a = some h) :
    setType m a t = some (storeMCB m a { h with type := t }) := by
  simp [setType, hl]

theorem setNext_eq (m : Mem) (a x : Nat) (h : MCB)
    (hl : lookupMCB m a = some h) :
    setNext m a x = some (storeMCB m a { h with next := x }) := by
  simp [setNext, hl]

theorem setPrev_eq (m : Mem) (a x : Nat) (h : MCB)
    (hl : lookupMCB m a = some h) :
    setPrev m a x = some (storeMCB m a { h with prev := x }) := by
  simp [setPrev, hl]

theorem setSize_eq (m : Mem) (a x : Nat) (h : MCB)
    (hl : lookupMCB m a = some h) :
    setSize m a x = some (storeMCB m a { h with size := x % SIZE24 }) := by
  simp [setSize, hl]

/-!
Claim C1.  heap::info is specified to walk the whole circular list from
start back to start and account every chunk; the code instead starts the
walk at freemem and stops at start, so every chunk between start and
freemem is skipped.  On a fresh 1024-byte pool at base 64, acquire(100)
splits the single chunk into an allocated chunk at 64 and a free
remainder at 176 and advances the hint to 176; the actual circular list
holds one allocated and one free chunk, yet info reports zero allocated
blocks.
-/

/-- C1: after acquire(100) on a fresh pool the chunk list holds one
allocated chunk (size 112) and one free chunk (size 900), but info,
walking from freemem = 176, reports zero used blocks and one free block
instead of the one-and-one the specification promises. -/
theorem C1_info_skips_allocated_chunks :
    heapMalloc (heapInit 64 1024) 100 10 =
      some (⟨[(64, ⟨176, 64, 112, Mark.ALLOCATED⟩),
              (176, ⟨64, 64, 900, Mark.FREE⟩)], 64, 176⟩, some 76) ∧
    (chunkList ⟨[(64, ⟨176, 64, 112, Mark.ALLOCATED⟩),
                 (176, ⟨64, 64, 900, Mark.FREE⟩)], 64, 176⟩ 10).map
        (List.map fun e => (e.2.type, e.2.size)) =
      some [(Mark.ALLOCATED, 112), (Mark.FREE, 900)] ∧
    heapInfo ⟨[(64, ⟨176, 64, 112, Mark.ALLOCATED⟩),
               (176, ⟨64, 64, 900, Mark.FREE⟩)], 64, 176⟩ 10 =
      some ⟨⟨0, 0, 0⟩, ⟨1, 900, 900⟩⟩ := by
  decide

/-!
Claim C3, counterexample part.  Invariant I3 claims the sum of header
size plus stored size over all chunks equals the bytes registered for
the pool.  A split stores the full rounded request (which includes one
header) as the allocated chunk size, so already after one acquire the
sum exceeds the pool size by one header: 1036 versus the 1024 bytes
registered.
-/

/-- C3 counterexample: after acquire(100) on a fresh 1024-byte pool the
accounting sum of the chunk list is 1036, not the 1024 bytes registered,
refuting the sum clause of I3 on a reachable state. -/
theorem C3_account_sum_cex :
    heapMalloc (heapInit 64 1024) 100 10 =
      some (⟨[(64, ⟨176, 64, 112, Mark.ALLOCATED⟩),
              (176, ⟨64, 64, 900, Mark.FREE⟩)], 64, 176⟩, some 76) ∧
    (chunkList ⟨[(64, ⟨176, 64, 112, Mark.ALLOCATED⟩),
                 (176, ⟨64, 64, 900, Mark.FREE⟩)], 64, 176⟩ 10).map chunkAccount =
      some 1036 ∧
    (1036 : Nat) ≠ 1024 := by
  decide

/-!
Claim C5, counterexample part.  The round-trip claim quantifies over
every heap state satisfying the invariants.  A two-pool state with two
free chunks that are list neighbours but not address neighbours
satisfies I1 to I4, yet releasing a freshly acquired exact-fit chunk
coalesces it with its non-adjacent list successor: the two-chunk layout
collapses to one chunk and is not restored.
-/

/-- C5 counterexample: the two-pool state below satisfies I1 to I4
(registered total 1024 + 512 = 1536), acquire(1000) succeeds as an exact
fit, and the immediate release coalesces across the pool boundary,
leaving one chunk where the pre-acquire layout had two. -/
theorem C5_roundtrip_cex :
    specI1B ⟨[(64, ⟨4096, 64, 1012, Mark.FREE⟩),
              (4096, ⟨64, 64, 500, Mark.FREE⟩)], 64, 64⟩ 10 = true ∧
    specI2B ⟨[(64, ⟨4096, 64, 1012, Mark.FREE⟩),
              (4096, ⟨64, 64, 500, Mark.FREE⟩)], 64, 64⟩ 10 = true ∧
    specI3B ⟨[(64, ⟨4096, 64, 1012, Mark.FREE⟩),
              (4096, ⟨64, 64, 500, Mark.FREE⟩)], 64, 64⟩ 10 1536 = true ∧
    specI4B ⟨[(64, ⟨4096, 64, 1012, Mark.FREE⟩),
              (4096, ⟨64, 64, 500, Mark.FREE⟩)], 64, 64⟩ 10 = true ∧
    heapMalloc ⟨[(64, ⟨4096, 64, 1012, Mark.FREE⟩),
                 (4096, ⟨64, 64, 500, Mark.FREE⟩)], 64, 64⟩ 1000 10 =
      some (⟨[(64, ⟨4096, 64, 1012, Mark.ALLOCATED⟩),
              (4096, ⟨64, 64, 500, Mark.FREE⟩)], 64, 4096⟩, some 76) ∧
    heapFree ⟨[(64, ⟨4096, 64, 1012, Mark.ALLOCATED⟩),
               (4096, ⟨64, 64, 500, Mark.FREE⟩)], 64, 4096⟩ 76 =
      some ⟨[(64, ⟨64, 64, 1512, Mark.FREE⟩),
             (4096, ⟨64, 64, 500, Mark.FREE⟩)], 64, 64⟩ ∧
    (chunkList ⟨[(64, ⟨4096, 64, 1012, Mark.FREE⟩),
                 (4096, ⟨64, 64, 500, Mark.FREE⟩)], 64, 64⟩ 10).map List.length =
      some 2 ∧
    (chunkList ⟨[(64, ⟨64, 64, 1512, Mark.FREE⟩),
                 (4096, ⟨64, 64, 500, Mark.FREE⟩)], 64, 64⟩ 10).map List.length =
      some 1 := by
  decide

/-!
Claim C7, counterexample part.  The claim says release of a pointer
never returned by acquire is a no-op on every reachable state.  After
init plus add (no acquire at all, so no pointer was ever returned), the
usable-area pointer of the added free chunk passes the structural
crosscheck (its prev is a self-loop) and release proceeds to coalesce
the chunk with its non-adjacent list successor, mutating the heap.
-/

/-- C7 counterexample: on the reachable state obtained by init(64,1024)
followed by add(4096,512), release(4108), a pointer acquire never
produced, passes validation and rewrites the added chunk (size 500 to
1512, links to itself), so the heap state changes. -/
theorem C7_invalid_release_mutates_cex :
    heapAdd (heapInit 64 1024) 4096 512 =
      some ⟨[(64, ⟨4096, 64, 1012, Mark.FREE⟩),
             (4096, ⟨64, 4096, 500, Mark.FREE⟩)], 64, 64⟩ ∧
    heapFree ⟨[(64, ⟨4096, 64, 1012, Mark.FREE⟩),
               (4096, ⟨64, 4096, 500, Mark.FREE⟩)], 64, 64⟩ 4108 =
      some ⟨[(64, ⟨4096, 64, 1012, Mark.FREE⟩),
             (4096, ⟨4096, 4096, 1512, Mark.FREE⟩)], 64, 64⟩ ∧
    (⟨[(64, ⟨4096, 64, 1012, Mark.FREE⟩),
       (4096, ⟨4096, 4096, 1512, Mark.FREE⟩)], 64, 64⟩ : HeapState) ≠
      ⟨[(64, ⟨4096, 64, 1012, Mark.FREE⟩),
        (4096, ⟨64, 4096, 500, Mark.FREE⟩)], 64, 64⟩ := by
  decide

/-!
Claim C8, counterexample part.  For a request of 2^32 - 12 bytes the
mathematically rounded size is 2^32, far beyond the 24-bit size field,
so the claim demands a null result with the heap unchanged.  The size
computation in malloc is 32-bit size_t arithmetic, wraps to 0, and the
full scan then splits the only chunk degenerately: the request succeeds
with a zero-sized allocation and the heap is rewritten.
-/

/-- C8 counterexample: acquire(2^32 - 12) on a fresh 1024-byte pool has
an unrepresentable rounded size yet returns pointer 76 and truncates the
single chunk to a zero-size allocated chunk instead of failing. -/
theorem C8_oversized_wrap_cex :
    SIZE24 ≤ roundUpAligned (4294967296 - 12) ∧
    heapMalloc (heapInit 64 1024) (4294967296 - 12) 10 =
      some (⟨[(64, ⟨64, 64, 0, Mark.ALLOCATED⟩)], 64, 64⟩, some 76) ∧
    (⟨[(64, ⟨64, 64, 0, Mark.ALLOCATED⟩)], 64, 64⟩ : HeapState) ≠
      heapInit 64 1024 := by
  decide

/-!
Claim C2.  heap::add links the new region next to the current freemem
chunk and rewires only freemem.next.  When freemem is not start, the old
successor side of freemem is bypassed: the new chunk and freemem form a
cycle that start feeds into but that never returns to start, so the
next-reachability half of I1 is destroyed.  The state used below is
reachable: acquire(100) on a fresh pool leaves freemem = 176 ≠ start.
-/

/-- Header memory after init(64,1024), acquire(100) and add(4096,512):
the scan cycle is 64 to 176 to 4096 back to 176, never reaching 64. -/
def addCexMem : Mem :=
  [(64, ⟨176, 64, 112, Mark.ALLOCATED⟩),
   (176, ⟨4096, 64, 900, Mark.FREE⟩),
   (4096, ⟨176, 4096, 500, Mark.FREE⟩)]

theorem addCexMem_orbit : ∀ n,
    (iterNext addCexMem n 176 = some 176 ∨ iterNext addCexMem n 176 = some 4096) ∧
    (iterNext addCexMem n 4096 = some 176 ∨ iterNext addCexMem n 4096 = some 4096) := by
  have l176 : lookupMCB addCexMem 176 = some ⟨4096, 64, 900, Mark.FREE⟩ := by decide
  have l4096 : lookupMCB addCexMem 4096 = some ⟨176, 4096, 500, Mark.FREE⟩ := by decide
  intro n
  induction n with
  | zero => exact ⟨Or.inl rfl, Or.inr rfl⟩
  | succ k ih =>
    constructor
    · rw [show iterNext addCexMem (k + 1) 176 = iterNext addCexMem k 4096 from by
        simp [iterNext, l176]]
      exact ih.2
    · rw [show iterNext addCexMem (k + 1) 4096 = iterNext addCexMem k 176 from by
        simp [iterNext, l4096]]
      exact ih.1

/-- C2 counterexample: on the reachable state after acquire(100) (whose
hint 176 is not start and which satisfies I1), add(4096,512) installs the
new chunk next to the hint, after which following next from start never
returns to start: circularity I1 is not preserved. -/
theorem C2_add_breaks_reachability_cex :
    heapMalloc (heapInit 64 1024) 100 10 =
      some (⟨[(64, ⟨176, 64, 112, Mark.ALLOCATED⟩),
              (176, ⟨64, 64, 900, Mark.FREE⟩)], 64, 176⟩, some 76) ∧
    specI1B ⟨[(64, ⟨176, 64, 112, Mark.ALLOCATED⟩),
              (176, ⟨64, 64, 900, Mark.FREE⟩)], 64, 176⟩ 10 = true ∧
    heapAdd ⟨[(64, ⟨176, 64, 112, Mark.ALLOCATED⟩),
              (176, ⟨64, 64, 900, Mark.FREE⟩)], 64, 176⟩ 4096 512 =
      some ⟨addCexMem, 64, 176⟩ ∧
    ¬ ∃ n, 0 < n ∧ iterNext addCexMem n 64 = some 64 := by
  refine ⟨by decide, by decide, by decide, ?_⟩
  rintro ⟨n, hn, he⟩
  match n, hn with
  | k + 1, _ =>
    rw [show iterNext addCexMem (k + 1) 64 = iterNext addCexMem k 176 from by
      have l64 : lookupMCB addCexMem 64 = some ⟨176, 64, 112, Mark.ALLOCATED⟩ := by decide
      simp [iterNext, l64]] at he
    rcases (addCexMem_orbit k).1 with h | h <;> rw [he] at h <;> simp at h

/-- C2 amended: add installs the region as one new free chunk whose next
is the hint chunk and whose prev is itself, rewires the hint chunk next
to the region, and leaves start and freemem unchanged (for every state
in which the hint chunk exists). -/
theorem C2_add_installs_chunk (s : HeapState) (region sz : Nat) (fh : MCB)
    (hl : lookupMCB s.mem s.freemem = some fh) :
    ∃ s2, heapAdd s region sz = some s2 ∧
      s2.start = s.start ∧ s2.freemem = s.freemem ∧
      lookupMCB s2.mem region =
        some ⟨s.freemem, region, (sz - mcbSize) % SIZE24, Mark.FREE⟩ ∧
      (lookupMCB s2.mem s.freemem).map MCB.next = some region := by
  by_cases hr : region = s.freemem
  · subst hr
    have heq : heapAdd s s.freemem sz =
        some ⟨storeMCB
                (storeMCB s.mem s.freemem
                  ⟨s.freemem, s.freemem, (sz - mcbSize) % SIZE24, Mark.FREE⟩)
                s.freemem
                ⟨s.freemem, s.freemem, (sz - mcbSize) % SIZE24, Mark.FREE⟩,
              s.start, s.freemem⟩ := by
      simp only [heapAdd, setNext, lookup_store_self, Option.map_some]
      rfl
    exact ⟨_, heq, rfl, rfl, by rw [lookup_store_self],
      by rw [lookup_store_self]; rfl⟩
  · have hl1 : lookupMCB (storeMCB s.mem region
        ⟨s.freemem, region, (sz - mcbSize) % SIZE24, Mark.FREE⟩) s.freemem =
        some fh := by
      rw [lookup_store_ne _ _ _ _ hr]; exact hl
    have heq : heapAdd s region sz =
        some ⟨storeMCB
                (storeMCB s.mem region
                  ⟨s.freemem, region, (sz - mcbSize) % SIZE24, Mark.FREE⟩)
                s.freemem { fh with next := region },
              s.start, s.freemem⟩ := by
      simp only [heapAdd, setNext, hl1, Option.map_some]
      rfl
    refine ⟨_, heq, rfl, rfl, ?_, ?_⟩
    · rw [lookup_store_ne _ _ _ _ (fun hrh => hr hrh.symm), lookup_store_self]
    · rw [lookup_store_self]; rfl

/-- C2 amended witness: the installation facts at a concrete state, the
fresh 1024-byte pool extended by a 512-byte region at 4096. -/
theorem C2_add_installs_chunk_witness :
    ∃ s2, heapAdd (heapInit 64 1024) 4096 512 = some s2 ∧
      s2.start = (heapInit 64 1024).start ∧
      s2.freemem = (heapInit 64 1024).freemem ∧
      lookupMCB s2.mem 4096 =
        some ⟨(heapInit 64 1024).freemem, 4096, (512 - mcbSize) % SIZE24, Mark.FREE⟩ ∧
      (lookupMCB s2.mem (heapInit 64 1024).freemem).map MCB.next = some 4096 :=
  C2_add_installs_chunk (heapInit 64 1024) 4096 512
    ⟨64, 64, 1012, Mark.FREE⟩ (by decide)

/-!
Claim C7, amended part.  Release is a guaranteed no-op exactly on the
pointers its guards reject: null, misaligned, failing the prev
crosscheck, or below start.  (The counterexample above shows pointers
outside this set that acquire never returned and that still mutate the
heap.)
-/

/-- C7 amended: release on a pointer rejected by the guards of
heap::free (null, misaligned, crosscheck failure, or below start) leaves
the heap state unchanged. -/
theorem C7_rejected_release_noop (s : HeapState) (p : Nat)
    (hr : freeRejected s p) : heapFree s p = some s := by
  unfold heapFree
  by_cases hg : p = 0 ∨ p % HEAP_ALIGN ≠ 0
  · simp [hg]
  · rcases hr with h0 | hmis | ⟨th, hth, hcase⟩
    · exact absurd (Or.inl h0) hg
    · exact absurd (Or.inr hmis) hg
    · rw [if_neg hg]
      rcases hcase with ⟨hself, hlt⟩ | ⟨hne, xh, hxh, hbad⟩
      · simp [hth, hself, hlt]
      · rcases hbad with hxn | hlt
        · simp [hth, hne, hxh, hxn]
        · simp [hth, hne, hxh, hlt]

/-- C7 amended witness: release(0) on the fresh pool is a no-op, through
the theorem applied at the null pointer. -/
theorem C7_rejected_release_noop_witness :
    heapFree (heapInit 64 1024) 0 = some (heapInit 64 1024) :=
  C7_rejected_release_noop (heapInit 64 1024) 0 (Or.inl rfl)

/-!
Claim C8, amended part.  When the size computation does not wrap (the
request plus header plus alignment slack stays below 2^32) and the
rounded size does not fit the 24-bit size field, no stored chunk size
can satisfy the scan (all stored sizes are below 2^24), so malloc fails
exactly like exhaustion: null result, heap untouched.
-/

theorem mallocLoop_oversized_fails (start sz : Nat) (m : Mem)
    (hms : MemSized m) (hsz : SIZE24 ≤ sz) :
    ∀ fuel t cnt m2 a tf c,
      mallocLoop start sz fuel m t none cnt = some (m2, a, tf, c) →
      m2 = m ∧ a = none := by
  intro fuel
  induction fuel with
  | zero => intro t cnt m2 a tf c h; simp [mallocLoop] at h
  | succ k ih =>
    intro t cnt m2 a tf c h
    rw [mallocLoop] at h
    cases hl : lookupMCB m t with
    | none => rw [hl] at h; simp at h
    | some hh =>
      rw [hl] at h
      have hsmall : hh.size < SIZE24 := hms _ (mem_of_lookup hl)
      have hnot : ¬ sz ≤ hh.size := by omega
      cases hty : hh.type with
      | FREE =>
        simp only [mallocStep, hty, USE_FULL_SCAN, hnot, false_and, if_false,
          if_true, reduceCtorEq, if_neg, ite_true, ite_false] at h
        by_cases hnx : hh.next = start
        · simp only [hnx, if_pos rfl, if_true] at h
          simp at h
          exact ⟨h.1.symm, h.2.1.symm⟩
        · simp only [if_neg hnx] at h
          exact ih _ _ _ _ _ _ h
      | ALLOCATED =>
        simp only [mallocStep, hty, reduceCtorEq, if_false, ite_false] at h
        by_cases hnx : hh.next = start
        · simp only [hnx, if_pos rfl, USE_FULL_SCAN, if_true] at h
          simp at h
          exact ⟨h.1.symm, h.2.1.symm⟩
        · simp only [if_neg hnx] at h
          exact ih _ _ _ _ _ _ h

/-- C8 amended: for every state whose stored sizes respect the 24-bit
field, a request whose mathematically rounded size does not fit the
24-bit field but whose size computation does not wrap 32-bit size_t is
rejected exactly like exhaustion: acquire returns null and the heap is
unchanged. -/
theorem C8_unrepresentable_rejected (s : HeapState) (n fuel : Nat)
    (s2 : HeapState) (r : Option Nat) (hms : MemSized s.mem)
    (hnw : n + mcbSize + (HEAP_ALIGN - 1) < SIZE_T_MOD)
    (hbig : SIZE24 ≤ roundUpAligned n)
    (heq : heapMalloc s n fuel = some (s2, r)) :
    s2 = s ∧ r = none := by
  have hrw : roundedSizeW n = roundUpAligned n := by
    unfold roundedSizeW roundUpAligned
    rw [Nat.mod_eq_of_lt hnw]
  unfold heapMalloc at heq
  cases hml : mallocLoop s.start (roundedSizeW n) fuel s.mem s.freemem none 0 with
  | none => rw [hml] at heq; simp at heq
  | some res =>
    obtain ⟨m, a, tf, c⟩ := res
    rw [hml] at heq
    obtain ⟨hm2, ha⟩ := mallocLoop_oversized_fails s.start (roundedSizeW n)
      s.mem hms (by rw [hrw]; exact hbig) fuel s.freemem 0 m a tf c hml
    subst hm2
    subst ha
    simp at heq
    exact ⟨heq.1.symm, heq.2.symm⟩

/-- C8 amended witness: a 32 MiB request on the fresh 1024-byte pool is
rejected with the heap unchanged, through the theorem at concrete
arguments. -/
theorem C8_unrepresentable_rejected_witness :
    heapInit 64 1024 = heapInit 64 1024 ∧ (none : Option Nat) = none :=
  C8_unrepresentable_rejected (heapInit 64 1024) 33554432 10
    (heapInit 64 1024) none (by decide) (by decide) (by decide) (by decide)

/-!
Claim C9.  A split stores the full rounded amount (request plus one
header, rounded up) as the allocated chunk size, while init stores the
pool bytes minus one header.  Consequently the Used totals of info carry
one header of overhead per split allocation.
-/

theorem mcbSplit_size_type (m : Mem) (a sz start : Nat) (m2 : Mem) (na : Nat)
    (heq : mcbSplit m a sz start = some (m2, na)) :
    (lookupMCB m2 a).map (fun h => (h.size, h.type)) =
      some (sz % SIZE24, Mark.ALLOCATED) := by
  unfold mcbSplit at heq
  cases hl : lookupMCB m a with
  | none => rw [hl] at heq; simp at heq
  | some h =>
    rw [hl] at heq
    simp only [] at heq
    have hm1a : lookupMCB
        (storeMCB m (a + sz) ⟨h.next, a, sub32 h.size sz % SIZE24, Mark.FREE⟩) a =
        some (if a + sz = a then ⟨h.next, a, sub32 h.size sz % SIZE24, Mark.FREE⟩
              else h) := by
      by_cases hx : a + sz = a
      · rw [if_pos hx, hx]; exact lookup_store_self _ _ _
      · rw [if_neg hx, lookup_store_ne _ _ _ _ hx]; exact hl
    rw [setNext_eq _ _ _ _ hm1a] at heq
    simp only [] at heq
    rw [setSize_eq _ _ _ _ (lookup_store_self _ _ _)] at heq
    simp only [] at heq
    rw [setType_eq _ _ _ _ (lookup_store_self _ _ _)] at heq
    simp only [] at heq
    split at heq
    · simp at heq
    · rename_i nh hlna
      split at heq
      · rename_i hnn
        split at heq
        · simp at heq
        · rename_i m5 hsp
          simp only [Option.some.injEq, Prod.mk.injEq] at heq
          obtain ⟨hm5, -⟩ := heq
          subst hm5
          simp only [setPrev, Option.map_eq_some'] at hsp
          obtain ⟨z, hz, hz2⟩ := hsp
          rw [← hz2]
          by_cases hza : nh.next = a
          · subst hza
            rw [lookup_store_self] at hz ⊢
            simp only [Option.some.injEq] at hz
            subst hz
            rfl
          · rw [lookup_store_ne _ _ _ _ hza, lookup_store_self]
            rfl
      · rename_i hnn
        simp only [Option.some.injEq, Prod.mk.injEq] at heq
        obtain ⟨hm4, -⟩ := heq
        subst hm4
        rw [lookup_store_self]
        rfl

/-- C9: a split-allocated chunk stores the full split length (for a
request n the rounded n + header), an init chunk stores the pool bytes
minus one header, and in a reachable three-chunk state the Used totals
of info show 112 = 100 + header bytes for the one split allocation whose
caller asked for 100. -/
theorem C9_split_size_includes_header :
    (∀ m a sz start m2 na, mcbSplit m a sz start = some (m2, na) →
      (lookupMCB m2 a).map (fun h => (h.size, h.type)) =
        some (sz % SIZE24, Mark.ALLOCATED)) ∧
    (∀ base bytes, (lookupMCB (heapInit base bytes).mem base).map
        (fun h => (h.size, h.type)) =
      some ((bytes - mcbSize) % SIZE24, Mark.FREE)) ∧
    roundedSizeW 100 = 100 + mcbSize ∧
    heapMalloc (heapInit 64 1024) 100 10 =
      some (⟨[(64, ⟨176, 64, 112, Mark.ALLOCATED⟩),
              (176, ⟨64, 64, 900, Mark.FREE⟩)], 64, 176⟩, some 76) ∧
    heapMalloc ⟨[(64, ⟨176, 64, 112, Mark.ALLOCATED⟩),
                 (176, ⟨64, 64, 900, Mark.FREE⟩)], 64, 176⟩ 100 10 =
      some (⟨[(64, ⟨176, 64, 112, Mark.ALLOCATED⟩),
              (176, ⟨288, 64, 112, Mark.ALLOCATED⟩),
              (288, ⟨64, 176, 788, Mark.FREE⟩)], 64, 288⟩, some 188) ∧
    heapFree ⟨[(64, ⟨176, 64, 112, Mark.ALLOCATED⟩),
               (176, ⟨288, 64, 112, Mark.ALLOCATED⟩),
               (288, ⟨64, 176, 788, Mark.FREE⟩)], 64, 288⟩ 76 =
      some ⟨[(64, ⟨176, 64, 112, Mark.FREE⟩),
             (176, ⟨288, 64, 112, Mark.ALLOCATED⟩),
             (288, ⟨64, 176, 788, Mark.FREE⟩)], 64, 64⟩ ∧
    heapInfo ⟨[(64, ⟨176, 64, 112, Mark.FREE⟩),
               (176, ⟨288, 64, 112, Mark.ALLOCATED⟩),
               (288, ⟨64, 176, 788, Mark.FREE⟩)], 64, 64⟩ 10 =
      some ⟨⟨1, 112, 112⟩, ⟨2, 788, 900⟩⟩ :=
  ⟨mcbSplit_size_type, fun base bytes => by simp [heapInit, lookupMCB],
   by decide, by decide, by decide, by decide, by decide⟩

/-- C9 witness: the split conclusion of the theorem at the concrete
split of the fresh pool chunk (length 112 out of 1012). -/
theorem C9_split_size_includes_header_witness :
    (lookupMCB [(64, ⟨176, 64, 112, Mark.ALLOCATED⟩),
                (176, ⟨64, 64, 900, Mark.FREE⟩)] 64).map
        (fun h => (h.size, h.type)) = some (112 % SIZE24, Mark.ALLOCATED) :=
  C9_split_size_includes_header.1
    [(64, ⟨64, 64, 1012, Mark.FREE⟩)] 64 112 64
    [(64, ⟨176, 64, 112, Mark.ALLOCATED⟩), (176, ⟨64, 64, 900, Mark.FREE⟩)]
    176 (by decide)

/-!
Claim C10.  The validation in heap::free reads only the prev and next
links, never ts.type, so rewriting the allocation mark of any chunk
cannot change whether a pointer validates.  In particular the usable
pointer of a chunk that is already free passes validation and the body
re-runs mark-free and coalescing: on a reachable one-pool state the
second release of the same pointer validates and re-executes (with no
net state change there), and on a reachable two-pool state releasing the
pointer of a never-allocated free chunk validates and visibly rewrites
the heap.
-/

theorem freeValidB_type_blind (m : Mem) (a : Nat) (h : MCB) (t : Mark)
    (start p : Nat) (hl : lookupMCB m a = some h) :
    freeValidB (storeMCB m a { h with type := t }) start p =
      freeValidB m start p := by
  have key : ∀ x, lookupMCB (storeMCB m a { h with type := t }) x =
      if x = a then some { h with type := t } else lookupMCB m x := by
    intro x
    by_cases hx : x = a
    · subst hx; rw [if_pos rfl]; exact lookup_store_self _ _ _
    · rw [if_neg hx, lookup_store_ne _ _ _ _ (fun hax => hx hax.symm)]
  unfold freeValidB
  by_cases h0 : p = 0 ∨ p % HEAP_ALIGN ≠ 0
  · simp [h0]
  · rw [if_neg h0, if_neg h0, key (p - mcbSize)]
    by_cases hpa : p - mcbSize = a
    · rw [if_pos hpa, hpa, hl]
      simp only []
      by_cases hprev : h.prev = p - mcbSize
      · rw [hpa] at hprev
        simp [hprev]
      · rw [hpa] at hprev
        simp only [if_neg hprev, key h.prev, if_neg hprev]
    · rw [if_neg hpa]
      cases hm : lookupMCB m (p - mcbSize) with
      | none => rfl
      | some th =>
        simp only []
        by_cases hprev : th.prev = p - mcbSize
        · simp [hprev]
        · simp only [if_neg hprev, key th.prev]
          by_cases hpa2 : th.prev = a
          · rw [if_pos hpa2, hpa2, hl]
          · rw [if_neg hpa2]

/-- C10: the free validation is blind to the allocation mark (rewriting
any chunk mark leaves its verdict unchanged); on the reachable one-pool
state after two acquires and one release, the released pointer 76 (its
chunk already free) still validates and free re-runs its body; and on a
reachable two-pool state the pointer 8204 of the never-allocated free
chunk validates and free visibly rewrites the heap instead of rejecting. -/
theorem C10_free_ignores_allocation_state :
    (∀ m a h t start p, lookupMCB m a = some h →
      freeValidB (storeMCB m a { h with type := t }) start p =
        freeValidB m start p) ∧
    (lookupMCB [(64, ⟨176, 64, 112, Mark.FREE⟩),
                (176, ⟨288, 64, 112, Mark.ALLOCATED⟩),
                (288, ⟨64, 176, 788, Mark.FREE⟩)] 64).map MCB.type =
      some Mark.FREE ∧
    freeValidB [(64, ⟨176, 64, 112, Mark.FREE⟩),
                (176, ⟨288, 64, 112, Mark.ALLOCATED⟩),
                (288, ⟨64, 176, 788, Mark.FREE⟩)] 64 76 = true ∧
    heapFree ⟨[(64, ⟨176, 64, 112, Mark.FREE⟩),
               (176, ⟨288, 64, 112, Mark.ALLOCATED⟩),
               (288, ⟨64, 176, 788, Mark.FREE⟩)], 64, 64⟩ 76 =
      some ⟨[(64, ⟨176, 64, 112, Mark.FREE⟩),
             (176, ⟨288, 64, 112, Mark.ALLOCATED⟩),
             (288, ⟨64, 176, 788, Mark.FREE⟩)], 64, 64⟩ ∧
    heapAdd (heapInit 128 2048) 8192 256 =
      some ⟨[(128, ⟨8192, 128, 2036, Mark.FREE⟩),
             (8192, ⟨128, 8192, 244, Mark.FREE⟩)], 128, 128⟩ ∧
    (lookupMCB [(128, ⟨8192, 128, 2036, Mark.FREE⟩),
                (8192, ⟨128, 8192, 244, Mark.FREE⟩)] 8192).map MCB.type =
      some Mark.FREE ∧
    freeValidB [(128, ⟨8192, 128, 2036, Mark.FREE⟩),
                (8192, ⟨128, 8192, 244, Mark.FREE⟩)] 128 8204 = true ∧
    heapFree ⟨[(128, ⟨8192, 128, 2036, Mark.FREE⟩),
               (8192, ⟨128, 8192, 244, Mark.FREE⟩)], 128, 128⟩ 8204 =
      some ⟨[(128, ⟨8192, 128, 2036, Mark.FREE⟩),
             (8192, ⟨8192, 8192, 2280, Mark.FREE⟩)], 128, 128⟩ ∧
    (⟨[(128, ⟨8192, 128, 2036, Mark.FREE⟩),
       (8192, ⟨8192, 8192, 2280, Mark.FREE⟩)], 128, 128⟩ : HeapState) ≠
      ⟨[(128, ⟨8192, 128, 2036, Mark.FREE⟩),
        (8192, ⟨128, 8192, 244, Mark.FREE⟩)], 128, 128⟩ :=
  ⟨freeValidB_type_blind, by decide, by decide, by decide, by decide,
   by decide, by decide, by decide, by decide⟩

/-- C10 witness: the mark-blindness conclusion at a concrete memory,
flipping the mark of the chunk at 64 of the fresh pool. -/
theorem C10_free_ignores_allocation_state_witness :
    freeValidB (storeMCB (heapInit 64 1024).mem 64
        { (⟨64, 64, 1012, Mark.FREE⟩ : MCB) with type := Mark.ALLOCATED })
        64 76 =
      freeValidB (heapInit 64 1024).mem 64 76 :=
  C10_free_ignores_allocation_state.1 (heapInit 64 1024).mem 64
    ⟨64, 64, 1012, Mark.FREE⟩ Mark.ALLOCATED 64 76 (by decide)

/-!
Claim C3, amended part.  The alignment half of I3 does hold along every
reachable execution: every write into the packed size field stores a
multiple of the alignment unit when pool and extension sizes are
themselves multiples of it.  This is proved by induction over the
reachability relation, with one preservation lemma per memory writer.
-/

theorem mem_store {m : Mem} {a : Nat} {v : MCB} {e : Nat × MCB}
    (he : e ∈ storeMCB m a v) : e ∈ m ∨ e.2 = v := by
  induction m with
  | nil =>
    simp [storeMCB] at he
    simp [he]
  | cons f rest ih =>
    obtain ⟨k, w⟩ := f
    simp only [storeMCB] at he
    split at he
    · rcases List.mem_cons.mp he with h1 | h1
      · right; rw [h1]
      · left; exact List.mem_cons_of_mem _ h1
    · rcases List.mem_cons.mp he with h1 | h1
      · left; simp [h1]
      · rcases ih h1 with h2 | h2
        · left; exact List.mem_cons_of_mem _ h2
        · right; exact h2

theorem memAligned_store {m : Mem} {a : Nat} {v : MCB}
    (hm : MemAligned m) (hv : v.size % HEAP_ALIGN = 0) :
    MemAligned (storeMCB m a v) := by
  intro e he
  rcases mem_store he with h1 | h1
  · exact hm e h1
  · rw [h1]; exact hv

theorem mod24_aligned {x : Nat} (hx : x % HEAP_ALIGN = 0) :
    (x % SIZE24) % HEAP_ALIGN = 0 := by
  rw [Nat.mod_mod_of_dvd x (by decide : HEAP_ALIGN ∣ SIZE24)]
  exact hx

theorem memAligned_setNext {m m2 : Mem} {a x : Nat} (hm : MemAligned m)
    (hs : setNext m a x = some m2) : MemAligned m2 := by
  simp only [setNext, Option.map_eq_some'] at hs
  obtain ⟨h, hl, hst⟩ := hs
  rw [← hst]
  exact memAligned_store hm (hm _ (mem_of_lookup hl))

theorem memAligned_setPrev {m m2 : Mem} {a x : Nat} (hm : MemAligned m)
    (hs : setPrev m a x = some m2) : MemAligned m2 := by
  simp only [setPrev, Option.map_eq_some'] at hs
  obtain ⟨h, hl, hst⟩ := hs
  rw [← hst]
  exact memAligned_store hm (hm _ (mem_of_lookup hl))

theorem memAligned_setType {m m2 : Mem} {a : Nat} {t : Mark}
    (hm : MemAligned m) (hs : setType m a t = some m2) : MemAligned m2 := by
  simp only [setType, Option.map_eq_some'] at hs
  obtain ⟨h, hl, hst⟩ := hs
  rw [← hst]
  exact memAligned_store hm (hm _ (mem_of_lookup hl))

theorem memAligned_setSize {m m2 : Mem} {a x : Nat} (hm : MemAligned m)
    (hx : x % HEAP_ALIGN = 0) (hs : setSize m a x = some m2) :
    MemAligned m2 := by
  simp only [setSize, Option.map_eq_some'] at hs
  obtain ⟨h, hl, hst⟩ := hs
  rw [← hst]
  exact memAligned_store hm (mod24_aligned hx)

theorem memAligned_merge {m m2 : Mem} {a st : Nat} (hm : MemAligned m)
    (hs : mergeWithNext m a st = some m2) : MemAligned m2 := by
  unfold mergeWithNext at hs
  split at hs
  · simp at hs
  · rename_i h hl
    split at hs
    · simp at hs
    · rename_i oh hlo
      split at hs
      · simp at hs
      · rename_i m1 hs1
        split at hs
        · simp at hs
        · rename_i m2x hs2
          have ha1 : MemAligned m1 := by
            refine memAligned_setSize hm ?_ hs1
            have u1 := hm _ (mem_of_lookup hl)
            have u2 := hm _ (mem_of_lookup hlo)
            simp only [HEAP_ALIGN] at u1 u2 ⊢
            omega
          have ha2 : MemAligned m2x := memAligned_setNext ha1 hs2
          split at hs
          · exact memAligned_setPrev ha2 hs
          · simp only [Option.some.injEq] at hs
            rw [← hs]; exact ha2

theorem memAligned_split {m : Mem} {a sz st : Nat} {m2 : Mem} {na : Nat}
    (hm : MemAligned m) (hsz : sz % HEAP_ALIGN = 0)
    (hs : mcbSplit m a sz st = some (m2, na)) : MemAligned m2 := by
  unfold mcbSplit at hs
  split at hs
  · simp at hs
  · rename_i h hl
    simp only [] at hs
    have hsub : sub32 h.size sz % HEAP_ALIGN = 0 := by
      have u1 := hm _ (mem_of_lookup hl)
      simp only [sub32, SIZE_T_MOD]
      simp only [HEAP_ALIGN] at u1 hsz ⊢
      omega
    have h1 : MemAligned (storeMCB m (a + sz)
        ⟨h.next, a, sub32 h.size sz % SIZE24, Mark.FREE⟩) :=
      memAligned_store hm (mod24_aligned hsub)
    split at hs
    · simp at hs
    · rename_i m2x hs2
      split at hs
      · simp at hs
      · rename_i m3x hs3
        split at hs
        · simp at hs
        · rename_i m4x hs4
          have h2 : MemAligned m2x := memAligned_setNext h1 hs2
          have h3 : MemAligned m3x := memAligned_setSize h2 hsz hs3
          have h4 : MemAligned m4x := memAligned_setType h3 hs4
          split at hs
          · simp at hs
          · rename_i nh hln
            split at hs
            · split at hs
              · simp at hs
              · rename_i m5x hs5
                simp only [Option.some.injEq, Prod.mk.injEq] at hs
                rw [← hs.1]
                exact memAligned_setPrev h4 hs5
            · simp only [Option.some.injEq, Prod.mk.injEq] at hs
              rw [← hs.1]
              exact h4

theorem mallocStep_inl_aligned {start sz : Nat} {m : Mem} {t : Nat}
    {xptr : Option Nat} {cnt : Nat} {h : MCB}
    {m2 : Mem} {a2 : Option Nat} {t2 c2 : Nat}
    (hm : MemAligned m) (hsz : sz % HEAP_ALIGN = 0)
    (hs : mallocStep start sz m t xptr cnt h = some (Sum.inl (m2, a2, t2, c2))) :
    MemAligned m2 := by
  unfold mallocStep at hs
  repeat' split at hs
  all_goals try simp only [Option.some.injEq, Sum.inl.injEq, Prod.mk.injEq,
    reduceCtorEq] at hs
  all_goals rw [← hs.1]
  all_goals first
    | exact memAligned_setType hm (by assumption)
    | exact memAligned_split hm hsz (by assumption)

theorem memAligned_mallocLoop (start sz : Nat) (hsz : sz % HEAP_ALIGN = 0) :
    ∀ fuel (m : Mem) t xptr cnt (m2 : Mem) a tf c, MemAligned m →
      mallocLoop start sz fuel m t xptr cnt = some (m2, a, tf, c) →
      MemAligned m2 := by
  intro fuel
  induction fuel with
  | zero => intro m t xptr cnt m2 a tf c hm h; simp [mallocLoop] at h
  | succ k ih =>
    intro m t xptr cnt m2 a tf c hm h
    rw [mallocLoop] at h
    split at h
    · simp at h
    · rename_i hh hl
      split at h
      · simp at h
      · rename_i r hstep
        simp only [Option.some.injEq] at h
        subst h
        exact mallocStep_inl_aligned hm hsz hstep
      · rename_i x2 c2 hstep
        split at h
        · split at h
          · split at h
            · rename_i x
              split at h
              · simp at h
              · rename_i mx nax hsp
                simp only [Option.some.injEq, Prod.mk.injEq] at h
                rw [← h.1]
                exact memAligned_split hm hsz hsp
            · simp only [Option.some.injEq, Prod.mk.injEq] at h
              rw [← h.1]
              exact hm
          · simp only [Option.some.injEq, Prod.mk.injEq] at h
            rw [← h.1]
            exact hm
        · exact ih _ _ _ _ _ _ _ _ hm h

theorem roundedSizeW_aligned (n : Nat) : roundedSizeW n % HEAP_ALIGN = 0 := by
  simp [roundedSizeW, Nat.mul_mod_left]

theorem memAligned_heapMalloc {s : HeapState} {n fuel : Nat} {s2 : HeapState}
    {r : Option Nat} (hm : MemAligned s.mem)
    (h : heapMalloc s n fuel = some (s2, r)) : MemAligned s2.mem := by
  unfold heapMalloc at h
  cases hml : mallocLoop s.start (roundedSizeW n) fuel s.mem s.freemem none 0 with
  | none => rw [hml] at h; simp at h
  | some res =>
    obtain ⟨m, a, t, c⟩ := res
    rw [hml] at h
    replace h : (if c = 1 ∧ a.isSome = true then
        match lookupMCB m t with
        | none => none
        | some th => some (⟨m, s.start, th.next⟩, a)
      else some (⟨m, s.start, s.freemem⟩, a)) = some (s2, r) := h
    have hal : MemAligned m :=
      memAligned_mallocLoop s.start (roundedSizeW n) (roundedSizeW_aligned n)
        fuel s.mem s.freemem none 0 m a t c hm hml
    by_cases hc : c = 1 ∧ a.isSome = true
    · rw [if_pos hc] at h
      cases hlt : lookupMCB m t with
      | none => rw [hlt] at h; simp at h
      | some th =>
        rw [hlt] at h
        simp only [Option.some.injEq, Prod.mk.injEq] at h
        rw [← h.1]
        exact hal
    · rw [if_neg hc] at h
      simp only [Option.some.injEq, Prod.mk.injEq] at h
      rw [← h.1]
      exact hal

theorem memAligned_heapFree {s : HeapState} {p : Nat} {s2 : HeapState}
    (hm : MemAligned s.mem) (h : heapFree s p = some s2) :
    MemAligned s2.mem := by
  unfold heapFree at h
  split at h
  · simp only [Option.some.injEq] at h; rw [← h]; exact hm
  · split at h
    · simp at h
    · rename_i th hth
      split at h
      · simp at h
      · rename_i bad hbad
        split at h
        · simp only [Option.some.injEq] at h; rw [← h]; exact hm
        · split at h
          · simp at h
          · rename_i m1 h1
            have ha1 : MemAligned m1 := memAligned_setType hm h1
            split at h
            · simp at h
            · rename_i th1 hth1
              split at h
              · simp at h
              · rename_i xh1 hxh1
                split at h
                · simp at h
                · rename_i m2 h2
                  have ha2 : MemAligned m2 := by
                    split at h2
                    · exact memAligned_merge ha1 h2
                    · simp only [Option.some.injEq] at h2
                      rw [← h2]; exact ha1
                  split at h
                  · simp at h
                  · rename_i th2 hth2
                    split at h
                    · simp at h
                    · rename_i ph hph
                      split at h
                      · simp at h
                      · rename_i m3 t3 h3
                        have ha3 : MemAligned m3 := by
                          split at h3
                          · split at h3
                            · simp at h3
                            · rename_i m3x h4
                              simp only [Option.some.injEq, Prod.mk.injEq] at h3
                              rw [← h3.1]
                              exact memAligned_merge ha2 h4
                          · simp only [Option.some.injEq, Prod.mk.injEq] at h3
                            rw [← h3.1]
                            exact ha2
                        split at h <;>
                          (simp only [Option.some.injEq] at h; rw [← h]; exact ha3)

theorem memAligned_heapAdd {s : HeapState} {region sz : Nat} {s2 : HeapState}
    (hm : MemAligned s.mem) (hsz : sz % HEAP_ALIGN = 0)
    (h : heapAdd s region sz = some s2) : MemAligned s2.mem := by
  unfold heapAdd at h
  have hreg : ((sz - mcbSize) % SIZE24) % HEAP_ALIGN = 0 := by
    refine mod24_aligned ?_
    simp only [HEAP_ALIGN] at hsz ⊢
    simp only [mcbSize]
    omega
  have h1 : MemAligned (storeMCB s.mem region
      ⟨s.freemem, region, (sz - mcbSize) % SIZE24, Mark.FREE⟩) :=
    memAligned_store hm hreg
  replace h : (match setNext (storeMCB s.mem region
      ⟨s.freemem, region, (sz - mcbSize) % SIZE24, Mark.FREE⟩) s.freemem region with
    | none => none
    | some m2 => some (⟨m2, s.start, s.freemem⟩ : HeapState)) = some s2 := h
  cases hsn : setNext (storeMCB s.mem region
      ⟨s.freemem, region, (sz - mcbSize) % SIZE24, Mark.FREE⟩) s.freemem region with
  | none => rw [hsn] at h; simp at h
  | some m2 =>
    rw [hsn] at h
    simp only [Option.some.injEq] at h
    rw [← h]
    exact memAligned_setNext h1 hsn

/-- C3 amended: on every state reachable from a freshly initialised pool
through acquire, release and extend (pool and extension byte counts
multiples of the alignment unit), every stored chunk size is a multiple
of the alignment unit. -/
theorem C3_sizes_aligned (s : HeapState) (hr : Reach s) : MemAligned s.mem := by
  induction hr with
  | init base bytes hb ha =>
    intro e he
    simp only [heapInit, List.mem_singleton] at he
    rw [he]
    refine mod24_aligned ?_
    simp only [HEAP_ALIGN] at ha ⊢
    simp only [mcbSize]
    omega
  | malloc s n fuel s2 r hr hm ih => exact memAligned_heapMalloc ih hm
  | free s p s2 hr hf ih => exact memAligned_heapFree ih hf
  | add s region sz s2 hr hsz ha ih => exact memAligned_heapAdd ih hsz ha

/-- C3 amended witness: the alignment invariant evaluated on the state
after acquire(100) on the fresh pool, reachable by two steps. -/
theorem C3_sizes_aligned_witness :
    MemAligned [(64, ⟨176, 64, 112, Mark.ALLOCATED⟩),
                (176, ⟨64, 64, 900, Mark.FREE⟩)] :=
  C3_sizes_aligned
    ⟨[(64, ⟨176, 64, 112, Mark.ALLOCATED⟩), (176, ⟨64, 64, 900, Mark.FREE⟩)],
     64, 176⟩
    (Reach.malloc (heapInit 64 1024) 100 10 _ (some 76)
      (Reach.init 64 1024 (by decide) (by decide)) (by decide))

/-!
Claim C6.  Characterisation of the scan outcomes of heap::malloc in
full-scan mode: a successful scan either accepted an exact fit (only the
allocation mark of the accepted free chunk changes) or split a
remembered candidate (a free chunk at least as large as the rounded size
but outside the exact-fit window); a failed scan leaves the memory
untouched.  From this the exact-fit window condition is exactly the
acceptance-without-splitting condition.
-/

theorem mallocStep_inl_outcome {start sz : Nat} {m : Mem} {t : Nat}
    {xptr : Option Nat} {cnt : Nat} {h : MCB}
    {m2 : Mem} {a2 : Option Nat} {t2 c2 : Nat}
    (hs : mallocStep start sz m t xptr cnt h = some (Sum.inl (m2, a2, t2, c2))) :
    t2 = t ∧ a2 = some (t + mcbSize) ∧ c2 = cnt + 1 ∧ h.type = Mark.FREE ∧
      sz ≤ h.size ∧ h.size ≤ sz + mcbSize + HEAP_ALIGN ∧
      setType m t Mark.ALLOCATED = some m2 := by
  unfold mallocStep at hs
  simp only [USE_FULL_SCAN, if_true] at hs
  split at hs
  · rename_i hfree
    split at hs
    · rename_i hwin
      split at hs
      · simp at hs
      · rename_i mx hset
        simp only [Option.some.injEq, Sum.inl.injEq, Prod.mk.injEq] at hs
        obtain ⟨h1, h2, h3, h4⟩ := hs
        refine ⟨h3.symm, h2.symm, h4.symm, hfree, hwin.1, hwin.2, ?_⟩
        rw [hset, h1]
    · split at hs <;> simp at hs
  · simp at hs

theorem mallocStep_inr_outcome {start sz : Nat} {m : Mem} {t : Nat}
    {xptr : Option Nat} {cnt : Nat} {h : MCB} {x2 : Option Nat} {c2 : Nat}
    (hl : lookupMCB m t = some h)
    (hci : candInv m sz xptr)
    (hs : mallocStep start sz m t xptr cnt h = some (Sum.inr (x2, c2))) :
    candInv m sz x2 := by
  unfold mallocStep at hs
  simp only [USE_FULL_SCAN, if_true] at hs
  split at hs
  · rename_i hfree
    split at hs
    · split at hs
      · simp at hs
      · simp at hs
    · rename_i hnowin
      split at hs
      · simp only [Option.some.injEq, Sum.inr.injEq, Prod.mk.injEq] at hs
        rw [← hs.1]
        intro x hx
        split at hx
        · rename_i hge
          simp only [Option.some.injEq] at hx
          rw [← hx]
          exact ⟨h, hl, hfree, hge, hnowin⟩
        · simp at hx
      · simp only [Option.some.injEq, Sum.inr.injEq, Prod.mk.injEq] at hs
        rw [← hs.1]
        exact hci
  · simp only [Option.some.injEq, Sum.inr.injEq, Prod.mk.injEq] at hs
    rw [← hs.1]
    exact hci

theorem mcbSplit_addr {m : Mem} {a sz start : Nat} {m2 : Mem} {na : Nat}
    (h : mcbSplit m a sz start = some (m2, na)) : na = a + sz := by
  unfold mcbSplit at h
  split at h
  · simp at h
  · simp only [] at h
    split at h
    · simp at h
    · split at h
      · simp at h
      · split at h
        · simp at h
        · split at h
          · simp at h
          · split at h
            · split at h
              · simp at h
              · simp only [Option.some.injEq, Prod.mk.injEq] at h
                exact h.2.symm
            · simp only [Option.some.injEq, Prod.mk.injEq] at h
              exact h.2.symm

theorem mallocLoop_outcome (start sz : Nat) :
    ∀ fuel (m : Mem) tptr (xptr : Option Nat) cnt (m2 : Mem)
      (a : Option Nat) (tf c : Nat),
      candInv m sz xptr →
      mallocLoop start sz fuel m tptr xptr cnt = some (m2, a, tf, c) →
      (a = none ∧ m2 = m) ∨
      (∃ h, lookupMCB m tf = some h ∧ h.type = Mark.FREE ∧
        a = some (tf + mcbSize) ∧ sz ≤ h.size ∧
        ((h.size ≤ sz + mcbSize + HEAP_ALIGN ∧
          setType m tf Mark.ALLOCATED = some m2) ∨
         (¬ h.size ≤ sz + mcbSize + HEAP_ALIGN ∧
          ∃ na, mcbSplit m tf sz start = some (m2, na)))) := by
  intro fuel
  induction fuel with
  | zero => intro m tptr xptr cnt m2 a tf c hci h; simp [mallocLoop] at h
  | succ k ih =>
    intro m tptr xptr cnt m2 a tf c hci h
    rw [mallocLoop] at h
    split at h
    · simp at h
    · rename_i hh hl
      split at h
      · simp at h
      · rename_i r hstep
        simp only [Option.some.injEq] at h
        subst h
        obtain ⟨h1, h2, h3, h4, h5, h6, h7⟩ := mallocStep_inl_outcome hstep
        subst h1
        right
        exact ⟨hh, hl, h4, h2, h5, Or.inl ⟨h6, h7⟩⟩
      · rename_i x2 c2 hstep
        have hci2 : candInv m sz x2 := mallocStep_inr_outcome hl hci hstep
        split at h
        · split at h
          · split at h
            · rename_i x
              split at h
              · simp at h
              · rename_i mx nax hsp
                simp only [Option.some.injEq, Prod.mk.injEq] at h
                obtain ⟨hm2, ha, htf, hc⟩ := h
                obtain ⟨hx, hlx, hxf, hxge, hxnw⟩ := hci2 x rfl
                right
                refine ⟨hx, ?_, hxf, ?_, hxge, Or.inr ⟨?_, x + sz, ?_⟩⟩
                · rw [← htf]; exact hlx
                · rw [← htf, ← ha]
                · intro hle; exact hxnw ⟨hxge, hle⟩
                · rw [← htf, ← hm2, ← mcbSplit_addr hsp]
                  exact hsp
            · simp only [Option.some.injEq, Prod.mk.injEq] at h
              left
              exact ⟨h.2.1.symm, h.1.symm⟩
          · simp only [Option.some.injEq, Prod.mk.injEq] at h
            left
            exact ⟨h.2.1.symm, h.1.symm⟩
        · exact ih m hh.next x2 c2 m2 a tf c hci2 h

/-- C6: during the scan, for a free chunk under inspection and the
rounded request size, the scan accepts the chunk immediately and without
splitting (only its mark changes to Allocated, and the pointer one
header past it is returned) exactly when its size lies in the window
from the rounded size to rounded size + header size + alignment unit. -/
theorem C6_exact_fit_iff (start n : Nat) (m : Mem) (tptr : Nat)
    (xptr : Option Nat) (cnt fuel : Nat) (h : MCB)
    (hl : lookupMCB m tptr = some h) (hfree : h.type = Mark.FREE)
    (hci : candInv m (roundedSizeW n) xptr) :
    (∃ m2, setType m tptr Mark.ALLOCATED = some m2 ∧
        mallocLoop start (roundedSizeW n) (fuel + 1) m tptr xptr cnt =
          some (m2, some (tptr + mcbSize), tptr, cnt + 1)) ↔
      (roundedSizeW n ≤ h.size ∧
        h.size ≤ roundedSizeW n + mcbSize + HEAP_ALIGN) := by
  constructor
  · rintro ⟨m2, hset, hloop⟩
    rcases mallocLoop_outcome start (roundedSizeW n) (fuel + 1) m tptr xptr cnt
        m2 (some (tptr + mcbSize)) tptr (cnt + 1) hci hloop with
      ⟨hnone, -⟩ | ⟨h2, hl2, -, -, hge, hrest⟩
    · simp at hnone
    · rw [hl] at hl2
      simp only [Option.some.injEq] at hl2
      subst hl2
      rcases hrest with ⟨hwin, -⟩ | ⟨hnwin, na, hsp⟩
      · exact ⟨hge, hwin⟩
      · exfalso
        have hsz := mcbSplit_size_type m tptr (roundedSizeW n) start m2 na hsp
        rw [setType_eq m tptr Mark.ALLOCATED h hl] at hset
        have hst := Option.some.inj hset
        rw [← hst, lookup_store_self] at hsz
        have heqs : h.size = roundedSizeW n % SIZE24 := by
          simp at hsz
          exact hsz
        have hmle : roundedSizeW n % SIZE24 ≤ roundedSizeW n := Nat.mod_le _ _
        omega
  · intro hwin
    refine ⟨storeMCB m tptr { h with type := Mark.ALLOCATED }, ?_, ?_⟩
    · exact setType_eq m tptr Mark.ALLOCATED h hl
    · rw [mallocLoop, hl]
      unfold mallocStep
      simp only [USE_FULL_SCAN, if_true, hfree, if_pos hwin,
        setType_eq m tptr Mark.ALLOCATED h hl]

/-- C6 witness: the iff at a concrete free chunk of 120 bytes with a
100-byte request (rounded size 112): 120 lies inside the window, the
chunk is accepted without splitting. -/
theorem C6_exact_fit_iff_witness :
    (∃ m2, setType [(64, ⟨64, 64, 120, Mark.FREE⟩)] 64 Mark.ALLOCATED =
        some m2 ∧
      mallocLoop 64 (roundedSizeW 100) 6 [(64, ⟨64, 64, 120, Mark.FREE⟩)]
          64 none 0 = some (m2, some (64 + mcbSize), 64, 0 + 1)) ↔
      (roundedSizeW 100 ≤ 120 ∧
        120 ≤ roundedSizeW 100 + mcbSize + HEAP_ALIGN) :=
  C6_exact_fit_iff 64 100 [(64, ⟨64, 64, 120, Mark.FREE⟩)] 64 none 0 5
    ⟨64, 64, 120, Mark.FREE⟩ (by decide) (by decide) (fun x hx => nomatch hx)

/-!
Claim C4.  The hint is advanced exactly when the loop counter free_cnt
is 1 on a successful scan.  In full-scan mode free_cnt counts a free
chunk only while no split candidate has been remembered yet (plus the
accepted exact fit itself), so free chunks inspected after the first
candidate do not count: the claim, which says they still count, is
refuted by a reachable scan that inspects two free chunks and still
advances the hint.  The amended description is proved by relating the
scan to countLoop, the specification-side counter with exactly this
counting discipline.
-/

theorem mallocLoop_count (start sz : Nat) :
    ∀ fuel (m : Mem) t (xptr : Option Nat) cnt (m2 : Mem)
      (a : Option Nat) (tf c : Nat),
      mallocLoop start sz fuel m t xptr cnt = some (m2, a, tf, c) →
      countLoop start sz fuel m t xptr.isSome cnt = some (c, a.isSome) := by
  intro fuel
  induction fuel with
  | zero => intro m t xptr cnt m2 a tf c h; simp [mallocLoop] at h
  | succ k ih =>
    intro m t xptr cnt m2 a tf c h
    rw [mallocLoop] at h
    rw [countLoop]
    split at h
    · simp at h
    · rename_i hh hl
      unfold mallocStep at h
      simp only [USE_FULL_SCAN, if_true] at h
      by_cases hfree : hh.type = Mark.FREE
      · rw [if_pos hfree] at h
        by_cases hwin : sz ≤ hh.size ∧ hh.size ≤ sz + mcbSize + HEAP_ALIGN
        · rw [if_pos hwin] at h
          rw [if_pos ⟨hfree, hwin.1, hwin.2⟩]
          rw [setType_eq m t Mark.ALLOCATED hh hl] at h
          simp only [Option.some.injEq, Prod.mk.injEq] at h
          rw [← h.2.2.2, ← h.2.1]
          rfl
        · rw [if_neg hwin] at h
          rw [if_neg (fun hw => hwin ⟨hw.2.1, hw.2.2⟩)]
          cases hxp : xptr with
          | none =>
            rw [hxp] at h
            simp only [] at h
            by_cases hnx : hh.next = start
            · rw [if_pos hnx] at h
              rw [if_pos hnx]
              by_cases hge : sz ≤ hh.size
              · rw [if_pos hge] at h
                simp only [] at h
                split at h
                · simp at h
                · rename_i mx nax hsp
                  simp only [Option.some.injEq, Prod.mk.injEq] at h
                  rw [← h.2.2.2, ← h.2.1]
                  simp [hfree, hge]
              · rw [if_neg hge] at h
                simp only [Option.some.injEq, Prod.mk.injEq] at h
                rw [← h.2.2.2, ← h.2.1]
                simp [hfree, hge]
            · rw [if_neg hnx] at h
              rw [if_neg hnx]
              by_cases hge : sz ≤ hh.size <;>
                simpa [hfree, hge] using ih _ _ _ _ _ _ _ _ h
          | some x =>
            rw [hxp] at h
            simp only [] at h
            by_cases hnx : hh.next = start
            · rw [if_pos hnx] at h
              rw [if_pos hnx]
              split at h
              · simp at h
              · rename_i mx nax hsp
                simp only [Option.some.injEq, Prod.mk.injEq] at h
                rw [← h.2.2.2, ← h.2.1]
                simp [hfree]
            · rw [if_neg hnx] at h
              rw [if_neg hnx]
              simpa [hfree] using ih _ _ _ _ _ _ _ _ h
      · rw [if_neg hfree] at h
        simp only [] at h
        rw [if_neg (fun hw => hfree hw.1)]
        by_cases hnx : hh.next = start
        · rw [if_pos hnx] at h
          rw [if_pos hnx]
          cases hxp : xptr with
          | none =>
            rw [hxp] at h
            simp only [Option.some.injEq, Prod.mk.injEq] at h
            rw [← h.2.2.2, ← h.2.1]
            simp [hfree]
          | some x =>
            rw [hxp] at h
            simp only [] at h
            split at h
            · simp at h
            · rename_i mx nax hsp
              simp only [Option.some.injEq, Prod.mk.injEq] at h
              rw [← h.2.2.2, ← h.2.1]
              simp [hfree]
        · rw [if_neg hnx] at h
          rw [if_neg hnx]
          simpa [hfree] using ih _ _ _ _ _ _ _ _ h

/-- C4 counterexample: on the reachable two-pool state below (fresh pool
plus a small added region, hint = start), acquire(100) inspects two Free
chunks (the large candidate at 64 and the too-small chunk at 2048, as
inspectAllLoop counts following the claim), yet the internal counter
stays at 1 because chunks after a remembered candidate are not counted,
and the hint is advanced from 64 to 176 — contradicting the claim that
the hint is only advanced when exactly one Free chunk was inspected. -/
theorem C4_hint_advance_two_inspected_cex :
    heapAdd (heapInit 64 1024) 2048 28 =
      some ⟨[(64, ⟨2048, 64, 1012, Mark.FREE⟩),
             (2048, ⟨64, 2048, 16, Mark.FREE⟩)], 64, 64⟩ ∧
    roundedSizeW 100 = 112 ∧
    inspectAllLoop 64 112 10
        [(64, ⟨2048, 64, 1012, Mark.FREE⟩), (2048, ⟨64, 2048, 16, Mark.FREE⟩)]
        64 false 0 = some (2, true) ∧
    heapMalloc ⟨[(64, ⟨2048, 64, 1012, Mark.FREE⟩),
                 (2048, ⟨64, 2048, 16, Mark.FREE⟩)], 64, 64⟩ 100 10 =
      some (⟨[(64, ⟨176, 64, 112, Mark.ALLOCATED⟩),
              (2048, ⟨64, 176, 16, Mark.FREE⟩),
              (176, ⟨2048, 64, 900, Mark.FREE⟩)], 64, 176⟩, some 76) ∧
    (176 : Nat) ≠ 64 := by
  decide

/-- C4 amended: the hint is advanced to the chunk after the allocated
one exactly when the scan succeeded and the count computed by countLoop
is 1; countLoop counts a Free chunk only while no split candidate has
been remembered, plus the accepted exact fit itself, so Free chunks
inspected after a candidate was remembered do not count; in every other
scan the hint is untouched. -/
theorem C4_hint_update_rule (s : HeapState) (n fuel : Nat) (s2 : HeapState)
    (r : Option Nat) (heq : heapMalloc s n fuel = some (s2, r)) :
    ∃ c b, countLoop s.start (roundedSizeW n) fuel s.mem s.freemem false 0 =
        some (c, b) ∧
      b = r.isSome ∧
      (¬(c = 1 ∧ r.isSome = true) → s2.freemem = s.freemem) ∧
      (∀ p, c = 1 → r = some p →
        ∃ hh, lookupMCB s2.mem (p - mcbSize) = some hh ∧
          s2.freemem = hh.next) := by
  unfold heapMalloc at heq
  cases hml : mallocLoop s.start (roundedSizeW n) fuel s.mem s.freemem none 0 with
  | none => rw [hml] at heq; simp at heq
  | some res =>
    obtain ⟨m, a, t, c⟩ := res
    rw [hml] at heq
    replace heq : (if c = 1 ∧ a.isSome = true then
        match lookupMCB m t with
        | none => none
        | some th => some ((⟨m, s.start, th.next⟩ : HeapState), a)
      else some ((⟨m, s.start, s.freemem⟩ : HeapState), a)) = some (s2, r) := heq
    have hcount := mallocLoop_count s.start (roundedSizeW n) fuel s.mem
      s.freemem none 0 m a t c hml
    refine ⟨c, a.isSome, hcount, ?_⟩
    by_cases hc : c = 1 ∧ a.isSome = true
    · rw [if_pos hc] at heq
      cases hlt : lookupMCB m t with
      | none => rw [hlt] at heq; simp at heq
      | some th =>
        rw [hlt] at heq
        simp only [Option.some.injEq, Prod.mk.injEq] at heq
        obtain ⟨hs2, hr⟩ := heq
        refine ⟨by rw [← hr], ?_, ?_⟩
        · intro hn
          exact absurd ⟨hc.1, by rw [← hr]; exact hc.2⟩ hn
        · intro p hc1 hrp
          rcases mallocLoop_outcome s.start (roundedSizeW n) fuel s.mem
              s.freemem none 0 m a t c (fun x hx => nomatch hx) hml with
            ⟨hanone, -⟩ | ⟨hx, hlx, -, ha, -, -⟩
          · rw [← hr, hanone] at hrp; exact absurd hrp (by simp)
          · rw [← hr] at hrp
            rw [ha] at hrp
            have hpt : p = t + mcbSize := by
              simp only [Option.some.injEq] at hrp; exact hrp.symm
            have hpt2 : p - mcbSize = t := by omega
            refine ⟨th, ?_, ?_⟩
            · rw [← hs2, hpt2]
              exact hlt
            · rw [← hs2]
    · rw [if_neg hc] at heq
      simp only [Option.some.injEq, Prod.mk.injEq] at heq
      obtain ⟨hs2, hr⟩ := heq
      refine ⟨by rw [← hr], ?_, ?_⟩
      · intro hn
        rw [← hs2]
      · intro p hc1 hrp
        exact absurd ⟨hc1, by rw [hr, hrp]; rfl⟩ hc

/-- C4 amended witness: acquire(100) on the fresh pool; the count is 1,
the scan succeeds, and the hint lands on the successor of the allocated
chunk at 64, through the theorem at concrete arguments. -/
theorem C4_hint_update_rule_witness :
    ∃ c b, countLoop 64 (roundedSizeW 100) 10
        (heapInit 64 1024).mem 64 false 0 = some (c, b) ∧
      b = (some 76 : Option Nat).isSome ∧
      (¬(c = 1 ∧ (some 76 : Option Nat).isSome = true) →
        (⟨[(64, ⟨176, 64, 112, Mark.ALLOCATED⟩),
           (176, ⟨64, 64, 900, Mark.FREE⟩)], 64, 176⟩ : HeapState).freemem =
          (heapInit 64 1024).freemem) ∧
      (∀ p, c = 1 → (some 76 : Option Nat) = some p →
        ∃ hh, lookupMCB (⟨[(64, ⟨176, 64, 112, Mark.ALLOCATED⟩),
            (176, ⟨64, 64, 900, Mark.FREE⟩)], 64, 176⟩ : HeapState).mem
            (p - mcbSize) = some hh ∧
          (⟨[(64, ⟨176, 64, 112, Mark.ALLOCATED⟩),
             (176, ⟨64, 64, 900, Mark.FREE⟩)], 64, 176⟩ : HeapState).freemem =
            hh.next) :=
  C4_hint_update_rule (heapInit 64 1024) 100 10
    ⟨[(64, ⟨176, 64, 112, Mark.ALLOCATED⟩), (176, ⟨64, 64, 900, Mark.FREE⟩)],
     64, 176⟩ (some 76) (by decide)

/-!
Claim C5, amended part.  On a freshly initialised pool the round trip
does hold: whatever request size succeeds (without size_t overflow in
the rounding), the immediate release of the returned pointer restores
the single-free-chunk layout and the hint.  The proof walks both
acquisition paths (exact fit, and split at the wrap-around of the scan)
symbolically in the request size.
-/

theorem mcbSplit_fresh (sz : Nat) (h12 : 12 ≤ sz) (hle : sz ≤ 1012) :
    mcbSplit [(64, ⟨64, 64, 1012, Mark.FREE⟩)] 64 sz 64 =
      some ([(64, ⟨64 + sz, 64, sz, Mark.ALLOCATED⟩),
             (64 + sz, ⟨64, 64, 1012 - sz, Mark.FREE⟩)], 64 + sz) := by
  have hne : ¬((64 : Nat) = 64 + sz) := by omega
  have hne2 : ¬((64 + sz : Nat) = 64) := by omega
  have hsub : sub32 1012 sz % SIZE24 = 1012 - sz := by
    simp only [sub32, SIZE_T_MOD, SIZE24]
    omega
  have hsz24 : sz % SIZE24 = sz := by
    simp only [SIZE24]; omega
  simp only [mcbSplit, setNext, setSize, setType, lookupMCB, storeMCB,
    hne, hne2, hsub, hsz24, if_true, if_false]
  simp [lookupMCB, storeMCB, setPrev, hne, hne2]

theorem heapFree_post_split (sz : Nat) (h12 : 12 ≤ sz) (hle : sz ≤ 1012) :
    heapFree ⟨[(64, ⟨64 + sz, 64, sz, Mark.ALLOCATED⟩),
               (64 + sz, ⟨64, 64, 1012 - sz, Mark.FREE⟩)], 64, 64 + sz⟩ 76 =
      some ⟨[(64, ⟨64, 64, 1012, Mark.FREE⟩),
             (64 + sz, ⟨64, 64, 1012 - sz, Mark.FREE⟩)], 64, 64⟩ := by
  have hne : ¬((64 : Nat) = 64 + sz) := by omega
  have hne2 : ¬((64 + sz : Nat) = 64) := by omega
  have hsum : (sz + (1012 - sz)) % SIZE24 = 1012 := by
    simp only [SIZE24]; omega
  have hlt : (64 : Nat) < 64 + sz := by omega
  simp [heapFree, mergeWithNext, setNext, setSize, setType, setPrev,
    lookupMCB, storeMCB, hne, hne2, hsum, hlt, HEAP_ALIGN, mcbSize, SIZE24]
  omega

theorem mallocLoop_fresh_exact (sz k : Nat)
    (hw1 : sz ≤ 1012) (hw2 : 1012 ≤ sz + mcbSize + HEAP_ALIGN) :
    mallocLoop 64 sz (k + 1) [(64, ⟨64, 64, 1012, Mark.FREE⟩)] 64 none 0 =
      some ([(64, ⟨64, 64, 1012, Mark.ALLOCATED⟩)], some 76, 64, 1) := by
  have hw2x : 1012 ≤ sz + 12 + 4 := by
    simpa [mcbSize, HEAP_ALIGN] using hw2
  rw [mallocLoop]
  simp [mallocStep, USE_FULL_SCAN, lookupMCB, setType, storeMCB, hw1, hw2x,
    mcbSize, HEAP_ALIGN]

theorem mallocLoop_fresh_split (sz k : Nat) (h12 : 12 ≤ sz)
    (hw2 : ¬ 1012 ≤ sz + mcbSize + HEAP_ALIGN) (hge : sz ≤ 1012) :
    mallocLoop 64 sz (k + 1) [(64, ⟨64, 64, 1012, Mark.FREE⟩)] 64 none 0 =
      some ([(64, ⟨64 + sz, 64, sz, Mark.ALLOCATED⟩),
             (64 + sz, ⟨64, 64, 1012 - sz, Mark.FREE⟩)], some 76, 64, 1) := by
  have hw2x : ¬ 1012 ≤ sz + 12 + 4 := by
    simpa [mcbSize, HEAP_ALIGN] using hw2
  rw [mallocLoop]
  simp [mallocStep, USE_FULL_SCAN, lookupMCB, hge, hw2x,
    mcbSplit_fresh sz h12 hge, mcbSize, HEAP_ALIGN]

theorem mallocLoop_fresh_fail (sz k : Nat) (hge : ¬ sz ≤ 1012) :
    mallocLoop 64 sz (k + 1) [(64, ⟨64, 64, 1012, Mark.FREE⟩)] 64 none 0 =
      some ([(64, ⟨64, 64, 1012, Mark.FREE⟩)], none, 64, 1) := by
  rw [mallocLoop]
  simp [mallocStep, USE_FULL_SCAN, lookupMCB, hge]

/-- C5 amended: on a freshly initialised 1024-byte pool at base 64, for
every request size whose rounding does not overflow size_t, if acquire
succeeds then the immediate release of the returned pointer restores the
original layout: the chunk list walked from start is again the single
free chunk of 1012 bytes, and the hint is back at the start chunk. -/
theorem C5_fresh_pool_roundtrip (n fuel : Nat) (s1 : HeapState) (p : Nat)
    (hnw : n + mcbSize + (HEAP_ALIGN - 1) < SIZE_T_MOD)
    (heq : heapMalloc (heapInit 64 1024) n fuel = some (s1, some p)) :
    ∃ s0, heapFree s1 p = some s0 ∧ s0.start = 64 ∧ s0.freemem = 64 ∧
      chunkList s0 1 = some [(64, ⟨64, 64, 1012, Mark.FREE⟩)] ∧
      chunkList (heapInit 64 1024) 1 =
        some [(64, ⟨64, 64, 1012, Mark.FREE⟩)] := by
  have h12 : 12 ≤ roundedSizeW n := by
    simp only [mcbSize, HEAP_ALIGN, SIZE_T_MOD] at hnw
    simp only [roundedSizeW, mcbSize, HEAP_ALIGN, SIZE_T_MOD]
    omega
  cases fuel with
  | zero => simp [heapMalloc, mallocLoop] at heq
  | succ k =>
    rw [show heapInit 64 1024 =
        (⟨[(64, ⟨64, 64, 1012, Mark.FREE⟩)], 64, 64⟩ : HeapState) from
      by decide] at heq
    unfold heapMalloc at heq
    simp only [] at heq
    by_cases hw1 : roundedSizeW n ≤ 1012
    · by_cases hw2 : 1012 ≤ roundedSizeW n + mcbSize + HEAP_ALIGN
      · rw [mallocLoop_fresh_exact (roundedSizeW n) k hw1 hw2] at heq
        simp only [Option.isSome_some, and_true, if_pos rfl, lookupMCB,
          if_true, Option.some.injEq, Prod.mk.injEq] at heq
        obtain ⟨hs1, hp⟩ := heq
        subst hs1
        subst hp
        exact ⟨⟨[(64, ⟨64, 64, 1012, Mark.FREE⟩)], 64, 64⟩, by decide, rfl,
          rfl, by decide, by decide⟩
      · have hml := mallocLoop_fresh_split (roundedSizeW n) k h12 hw2 hw1
        rw [hml] at heq
        simp only [Option.isSome_some, and_true, if_pos rfl, lookupMCB,
          if_true, Option.some.injEq, Prod.mk.injEq] at heq
        obtain ⟨hs1, hp⟩ := heq
        subst hs1
        subst hp
        exact ⟨⟨[(64, ⟨64, 64, 1012, Mark.FREE⟩),
                 (64 + roundedSizeW n,
                  ⟨64, 64, 1012 - roundedSizeW n, Mark.FREE⟩)], 64, 64⟩,
          heapFree_post_split (roundedSizeW n) h12 hw1, rfl, rfl,
          by simp [chunkList, chunkWalk, lookupMCB], by decide⟩
    · rw [mallocLoop_fresh_fail (roundedSizeW n) k hw1] at heq
      simp at heq

/-- C5 amended witness: acquire(100) on the fresh pool (split path)
followed by release restores the single 1012-byte free chunk and the
hint, through the theorem at concrete arguments. -/
theorem C5_fresh_pool_roundtrip_witness :
    ∃ s0, heapFree ⟨[(64, ⟨176, 64, 112, Mark.ALLOCATED⟩),
                     (176, ⟨64, 64, 900, Mark.FREE⟩)], 64, 176⟩ 76 = some s0 ∧
      s0.start = 64 ∧ s0.freemem = 64 ∧
      chunkList s0 1 = some [(64, ⟨64, 64, 1012, Mark.FREE⟩)] ∧
      chunkList (heapInit 64 1024) 1 =
        some [(64, ⟨64, 64, 1012, Mark.FREE⟩)] :=
  C5_fresh_pool_roundtrip 100 10
    ⟨[(64, ⟨176, 64, 112, Mark.ALLOCATED⟩), (176, ⟨64, 64, 900, Mark.FREE⟩)],
     64, 176⟩ 76 (by decide) (by decide)

end HeapZ
